import Mathlib

/-!
Verification of the kingpin RightScale server-array actor core
(`kingpin/actors/rightscale/base.py` and
`kingpin/actors/rightscale/server_array.py`) against its natural-language
specification.

The development shallowly embeds the Python source:

* `flatten` / `generateRightscaleParams` model the nested parameter
  encoder `_generate_rightscale_params` of `base.py` (including its
  `UnboundLocalError` on a sequence reached with an empty parent key,
  and the fact that scalar values are emitted unchanged).
* `find_server_arrays` models `ServerArrayBaseActor._find_server_arrays`
  with its mock-fabrication step and `raise_on` policy checks.
* `applyModel` models `ServerArrayBaseActor._apply`.
* `clone_execute`, `update_execute`, `terminate_execute`,
  `destroy_execute`, `launch_execute`, `execute_execute` model the
  `_execute` workflows of the six actors, recording the remote-client
  calls they issue as a trace.  External client behaviour (the `api`
  module, out of scope of the repository core) is a parameter `Client`
  of response functions; the unbounded polling loops are driven by the
  client's finite response lists, with exhaustion marked `diverged`.
  Concurrent fan-out (`_apply`) is determinised to input order; this
  does not affect which calls occur.
-/

set_option maxHeartbeats 1000000

deriving instance DecidableEq for Except

/-- A Python scalar value as it appears in a parameter tree. -/
inductive Scalar where
  | s : String → Scalar
  | i : Int → Scalar
  | b : Bool → Scalar
deriving DecidableEq

/-- Python's `str()` of a scalar. -/
def scalarPyStr : Scalar → String
  | .s v => v
  | .i n => toString n
  | .b bv => if bv then "True" else "False"

/-- The stringified form of a scalar (what the spec says values become). -/
def stringifyScalar (v : Scalar) : Scalar := .s (scalarPyStr v)

mutual
/-- A nested parameter tree: scalar leaves, mappings (Python `dict`,
keys in insertion order) and sequences (Python `list`). -/
inductive PTree where
  | leaf : Scalar → PTree
  | mapping : KVs → PTree
  | seq : PSeq → PTree
deriving DecidableEq

/-- The ordered key/value pairs of a mapping node. -/
inductive KVs where
  | nil : KVs
  | cons : String → PTree → KVs → KVs
deriving DecidableEq

/-- The ordered elements of a sequence node. -/
inductive PSeq where
  | nil : PSeq
  | cons : PTree → PSeq → PSeq
deriving DecidableEq
end

/-- Errors raised by the modelled code (Python exception classes). -/
inductive Err where
  | arrayNotFound          -- server_array.ArrayNotFound
  | arrayAlreadyExists     -- server_array.ArrayAlreadyExists
  | unrecoverable          -- exceptions.UnrecoverableActorFailure
  | invalidOptions         -- exceptions.InvalidOptions
  | invalidInputs          -- server_array.InvalidInputs
  | recoverable            -- exceptions.RecoverableActorFailure
  | httpFault              -- an unmapped requests HTTPError propagating
  | taskExecutionFailed    -- server_array.TaskExecutionFailed
  | nameErrorCount         -- UnboundLocalError reading current_count
  | nameErrorK             -- UnboundLocalError reading k in flatten
  | diverged               -- a polling loop that never meets its predicate
  | pythonFault            -- attribute access on None / a list (TypeError)
deriving DecidableEq

mutual
/-- `flatten` of `_generate_rightscale_params` (base.py lines 98-115).
`parent_key` starts as the prefix; a mapping key `k` extends it to
`parent_key[k]` (just `k` when the parent key is empty); a sequence
extends it to `parent_key[]`, computed with the unbound local `k` when
the parent key is empty; a scalar is emitted unchanged. -/
def flatten : PTree → String → Except Err (List (String × Scalar))
  | .leaf v, p => .ok [(p, v)]
  | .mapping kvs, p => flattenKVs kvs p
  | .seq ts, p =>
    if p = "" then .error .nameErrorK else flattenSeq ts (p ++ "[]")

/-- The mapping branch of `flatten`: iterate the items in order. -/
def flattenKVs : KVs → String → Except Err (List (String × Scalar))
  | .nil, _ => .ok []
  | .cons k v rest, p =>
    match flatten v (if p = "" then k else p ++ "[" ++ k ++ "]") with
    | .error e => .error e
    | .ok xs =>
      match flattenKVs rest p with
      | .error e => .error e
      | .ok ys => .ok (xs ++ ys)

/-- The sequence branch of `flatten`: every element uses the same key. -/
def flattenSeq : PSeq → String → Except Err (List (String × Scalar))
  | .nil, _ => .ok []
  | .cons t rest, key =>
    match flatten t key with
    | .error e => .error e
    | .ok xs =>
      match flattenSeq rest key with
      | .error e => .error e
      | .ok ys => .ok (xs ++ ys)
end

/-- `_generate_rightscale_params` (base.py lines 66-117): reject anything
that is not a dict with `InvalidOptions`, then flatten. -/
def generateRightscaleParams (pfx : String) (params : PTree) :
    Except Err (List (String × Scalar)) :=
  match params with
  | .mapping _ => flatten params pfx
  | _ => .error .invalidOptions

mutual
/-- Spec-side encoder, written from the spec's words: for a mapping value
at key `k` under path `p` recurse with `p[k]` (`k` when `p` is empty);
for a sequence recurse into each element with `p[]`; for a scalar emit
one pair `(p, scalar)`.  Compared with `flatten` by refinement. -/
def specFlatten : PTree → String → List (String × Scalar)
  | .leaf v, p => [(p, v)]
  | .mapping kvs, p => specFlattenKVs kvs p
  | .seq ts, p => specFlattenSeq ts (p ++ "[]")

/-- Mapping case of the spec-side encoder. -/
def specFlattenKVs : KVs → String → List (String × Scalar)
  | .nil, _ => []
  | .cons k v rest, p =>
    specFlatten v (if p = "" then k else p ++ "[" ++ k ++ "]") ++
      specFlattenKVs rest p

/-- Sequence case of the spec-side encoder. -/
def specFlattenSeq : PSeq → String → List (String × Scalar)
  | .nil, _ => []
  | .cons t rest, key => specFlatten t key ++ specFlattenSeq rest key
end

mutual
/-- Number of scalar leaves of a tree. -/
def leafCount : PTree → Nat
  | .leaf _ => 1
  | .mapping kvs => leafCountKVs kvs
  | .seq ts => leafCountSeq ts

/-- Number of scalar leaves below a mapping's items. -/
def leafCountKVs : KVs → Nat
  | .nil => 0
  | .cons _ v rest => leafCount v + leafCountKVs rest

/-- Number of scalar leaves below a sequence's elements. -/
def leafCountSeq : PSeq → Nat
  | .nil => 0
  | .cons t rest => leafCount t + leafCountSeq rest
end

mutual
/-- Nesting depth of a tree (a bare scalar has depth 1). -/
def depthT : PTree → Nat
  | .leaf _ => 1
  | .mapping kvs => 1 + depthKVs kvs
  | .seq ts => 1 + depthSeq ts

/-- Maximum depth of a mapping's values. -/
def depthKVs : KVs → Nat
  | .nil => 0
  | .cons _ v rest => max (depthT v) (depthKVs rest)

/-- Maximum depth of a sequence's elements. -/
def depthSeq : PSeq → Nat
  | .nil => 0
  | .cons t rest => max (depthT t) (depthSeq rest)
end

/-- A key nonempty-prefix lemma helper: `p ++ "[" ++ k ++ "]"` is never
the empty string. -/
theorem bracketKey_ne_empty (p k : String) : p ++ "[" ++ k ++ "]" ≠ "" := by
  intro h
  have hd := congrArg String.data h
  simp [String.data_append] at hd

/-- `p ++ "[]"` is never the empty string. -/
theorem seqKey_ne_empty (p : String) : p ++ "[]" ≠ "" := by
  intro h
  have hd := congrArg String.data h
  simp [String.data_append] at hd

mutual
/-- Refinement: with a nonempty parent key, the source encoder never
fails and produces exactly the spec-side flattening. -/
theorem flatten_eq_spec : ∀ (t : PTree) (p : String), p ≠ "" →
    flatten t p = .ok (specFlatten t p)
  | .leaf _, _, _ => rfl
  | .mapping kvs, p, hp => flattenKVs_eq_spec kvs p hp
  | .seq ts, p, hp => by
    rw [flatten, specFlatten, if_neg hp]
    exact flattenSeq_eq_spec ts (p ++ "[]") (seqKey_ne_empty p)

/-- Refinement, mapping case. -/
theorem flattenKVs_eq_spec : ∀ (kvs : KVs) (p : String), p ≠ "" →
    flattenKVs kvs p = .ok (specFlattenKVs kvs p)
  | .nil, _, _ => rfl
  | .cons k v rest, p, hp => by
    rw [flattenKVs, specFlattenKVs, if_neg hp,
      flatten_eq_spec v (p ++ "[" ++ k ++ "]") (bracketKey_ne_empty p k),
      flattenKVs_eq_spec rest p hp]

/-- Refinement, sequence case. -/
theorem flattenSeq_eq_spec : ∀ (ts : PSeq) (p : String), p ≠ "" →
    flattenSeq ts p = .ok (specFlattenSeq ts p)
  | .nil, _, _ => rfl
  | .cons t rest, key, hk => by
    rw [flattenSeq, specFlattenSeq, flatten_eq_spec t key hk,
      flattenSeq_eq_spec rest key hk]
end

mutual
/-- The spec-side encoder emits exactly one pair per scalar leaf. -/
theorem specFlatten_length : ∀ (t : PTree) (p : String),
    (specFlatten t p).length = leafCount t
  | .leaf _, _ => rfl
  | .mapping kvs, p => specFlattenKVs_length kvs p
  | .seq ts, p => specFlattenSeq_length ts (p ++ "[]")

/-- One pair per leaf, mapping case. -/
theorem specFlattenKVs_length : ∀ (kvs : KVs) (p : String),
    (specFlattenKVs kvs p).length = leafCountKVs kvs
  | .nil, _ => rfl
  | .cons k v rest, p => by
    rw [specFlattenKVs, leafCountKVs, List.length_append,
      specFlatten_length v _, specFlattenKVs_length rest p]

/-- One pair per leaf, sequence case. -/
theorem specFlattenSeq_length : ∀ (ts : PSeq) (p : String),
    (specFlattenSeq ts p).length = leafCountSeq ts
  | .nil, _ => rfl
  | .cons t rest, key => by
    rw [specFlattenSeq, leafCountSeq, List.length_append,
      specFlatten_length t key, specFlattenSeq_length rest key]
end

/-- Whether a tree is a mapping (Python `type(params) == dict`). -/
def PTree.isMapping : PTree → Bool
  | .mapping _ => true
  | _ => false

mutual
/-- `flatten` itself never raises `InvalidOptions`; the only error it can
raise is the unbound-local one. -/
theorem flatten_ne_invalidOptions : ∀ (t : PTree) (p : String),
    flatten t p ≠ .error .invalidOptions
  | .leaf _, _ => by rw [flatten]; intro h; cases h
  | .mapping kvs, p => flattenKVs_ne_invalidOptions kvs p
  | .seq ts, p => by
    rw [flatten]
    by_cases hp : p = ""
    · rw [if_pos hp]; intro h; cases h
    · rw [if_neg hp]; exact flattenSeq_ne_invalidOptions ts (p ++ "[]")

/-- Mapping case of `flatten_ne_invalidOptions`. -/
theorem flattenKVs_ne_invalidOptions : ∀ (kvs : KVs) (p : String),
    flattenKVs kvs p ≠ .error .invalidOptions
  | .nil, _ => by rw [flattenKVs]; intro h; cases h
  | .cons k v rest, p => by
    rw [flattenKVs]
    cases h1 : flatten v (if p = "" then k else p ++ "[" ++ k ++ "]") with
    | error e =>
      intro h
      cases h
      exact flatten_ne_invalidOptions v _ h1
    | ok xs =>
      cases h2 : flattenKVs rest p with
      | error e =>
        intro h
        cases h
        exact flattenKVs_ne_invalidOptions rest p h2
      | ok ys => intro h; cases h

/-- Sequence case of `flatten_ne_invalidOptions`. -/
theorem flattenSeq_ne_invalidOptions : ∀ (ts : PSeq) (key : String),
    flattenSeq ts key ≠ .error .invalidOptions
  | .nil, _ => by rw [flattenSeq]; intro h; cases h
  | .cons t rest, key => by
    rw [flattenSeq]
    cases h1 : flatten t key with
    | error e =>
      intro h
      cases h
      exact flatten_ne_invalidOptions t key h1
    | ok xs =>
      cases h2 : flattenSeq rest key with
      | error e =>
        intro h
        cases h
        exact flattenSeq_ne_invalidOptions rest key h2
      | ok ys => intro h; cases h
end

/-- C9: the Parameter Encoder fails with `InvalidOptions` exactly on
non-mapping inputs; a mapping is never rejected with `InvalidOptions`
(the type check is the only source of that error). -/
theorem c9_encoder_type_check : ∀ (pfx : String) (t : PTree),
    generateRightscaleParams pfx t = .error .invalidOptions ↔
      t.isMapping = false := by
  intro pfx t
  cases t with
  | leaf v => simp [generateRightscaleParams, PTree.isMapping]
  | mapping kvs =>
    simp only [generateRightscaleParams, PTree.isMapping]
    constructor
    · intro h
      exact absurd h (flatten_ne_invalidOptions (.mapping kvs) pfx)
    · intro h; cases h
  | seq ts => simp [generateRightscaleParams, PTree.isMapping]

/-- The tree `{bounds: {min_count: 3}}` from the claim's example. -/
def exampleBoundsTree : PTree :=
  .mapping (.cons "bounds" (.mapping (.cons "min_count" (.leaf (.i 3)) .nil)) .nil)

/-- C5 counterexample: the encoder emits the scalar `3` unchanged, not the
stringified `'3'` the claim describes; additionally, with an empty
prefix a sequence under an empty key crashes on the unbound local `k`,
so not every mapping tree even encodes. -/
theorem c5_counterexample :
    generateRightscaleParams "server_array" exampleBoundsTree =
      .ok [("server_array[bounds][min_count]", Scalar.i 3)] ∧
    Scalar.i 3 ≠ stringifyScalar (Scalar.i 3) ∧
    generateRightscaleParams ""
        (.mapping (.cons "" (.seq (.cons (.leaf (.i 1)) .nil)) .nil)) =
      .error .nameErrorK := by
  refine ⟨by decide, by decide, by decide⟩

/-- C5 (amended): with a nonempty prefix, the encoder emits exactly one
pair per scalar leaf, whose key is the prefix extended by one `[k]`
segment per mapping key and one literal `[]` segment per sequence
level (the recursion of `specFlatten`, written from the spec's key
grammar), and whose value is the scalar itself, unchanged. -/
theorem c5_amended : ∀ (t : PTree) (p : String), p ≠ "" →
    flatten t p = .ok (specFlatten t p) ∧
      (specFlatten t p).length = leafCount t := by
  intro t p hp
  exact ⟨flatten_eq_spec t p hp, specFlatten_length t p⟩

/-- C5 witness: the amended theorem applied to the claim's own example. -/
theorem c5_amended_witness :
    ("server_array" : String) ≠ "" ∧
      flatten exampleBoundsTree "server_array" =
        .ok (specFlatten exampleBoundsTree "server_array") ∧
      (specFlatten exampleBoundsTree "server_array").length =
        leafCount exampleBoundsTree :=
  ⟨by decide, c5_amended exampleBoundsTree "server_array" (by decide)⟩

/-- A mapping key that mentions no bracket character. -/
def goodKey (k : String) : Bool :=
  !(decide ('[' ∈ k.data)) && !(decide (']' ∈ k.data))

/-- The keys of a mapping node, in order. -/
def keysOf : KVs → List String
  | .nil => []
  | .cons k _ rest => k :: keysOf rest

/-- No duplicates (always true of the keys of a Python dict). -/
def nodupB : List String → Bool
  | [] => true
  | x :: xs => !(decide (x ∈ xs)) && nodupB xs

/-- Whether a mapping node is empty. -/
def KVs.isNil : KVs → Bool
  | .nil => true
  | .cons .. => false

mutual
/-- Well-formed trees for the amended round-trip claim: mappings and
scalars only (no sequences), every mapping nonempty with duplicate-free
bracket-free keys. -/
def wfT : PTree → Bool
  | .leaf _ => true
  | .mapping kvs => !kvs.isNil && nodupB (keysOf kvs) && wfKVs kvs
  | .seq _ => false

/-- Well-formedness of a mapping's items. -/
def wfKVs : KVs → Bool
  | .nil => true
  | .cons k v rest => goodKey k && wfT v && wfKVs rest
end

/-- `{a: [[1],[2]]}`. -/
def tNested1 : PTree :=
  .mapping (.cons "a"
    (.seq (.cons (.seq (.cons (.leaf (.i 1)) .nil))
      (.cons (.seq (.cons (.leaf (.i 2)) .nil)) .nil))) .nil)

/-- `{a: [[1,2]]}`. -/
def tNested2 : PTree :=
  .mapping (.cons "a"
    (.seq (.cons (.seq (.cons (.leaf (.i 1)) (.cons (.leaf (.i 2)) .nil)))
      .nil)) .nil)

/-- `{}`. -/
def tEmpty1 : PTree := .mapping .nil

/-- `{a: {}}`. -/
def tEmpty2 : PTree := .mapping (.cons "a" (.mapping .nil) .nil)

/-- A mapping whose single key contains bracket characters. -/
def tBracket1 : PTree := .mapping (.cons "a][x" (.leaf (.i 1)) .nil)

/-- `{a: {x: 1}}`. -/
def tBracket2 : PTree :=
  .mapping (.cons "a" (.mapping (.cons "x" (.leaf (.i 1)) .nil)) .nil)

/-- C6 counterexample: three pairs of distinct trees of nesting depth at
most 5 with identical encodings — nested sequences collapse, empty
mappings vanish, and bracket characters in keys forge segment
boundaries.  No regrouping of the output can reconstruct the tree. -/
theorem c6_counterexample :
    (flatten tNested1 "p" = flatten tNested2 "p" ∧ tNested1 ≠ tNested2 ∧
      depthT tNested1 ≤ 5 ∧ depthT tNested2 ≤ 5) ∧
    (flatten tEmpty1 "p" = flatten tEmpty2 "p" ∧ tEmpty1 ≠ tEmpty2 ∧
      depthT tEmpty1 ≤ 5 ∧ depthT tEmpty2 ≤ 5) ∧
    (flatten tBracket1 "p" = flatten tBracket2 "p" ∧ tBracket1 ≠ tBracket2 ∧
      depthT tBracket1 ≤ 5 ∧ depthT tBracket2 ≤ 5) := by
  refine ⟨⟨by decide, by decide, by decide, by decide⟩,
    ⟨by decide, by decide, by decide, by decide⟩,
    ⟨by decide, by decide, by decide, by decide⟩⟩

/-- Character data of the literal `"["`. -/
theorem data_lbr : ("[" : String).data = ['['] := rfl

/-- Character data of the literal `"]"`. -/
theorem data_rbr : ("]" : String).data = [']'] := rfl

/-- Character data of the literal `"[]"`. -/
theorem data_sqbrs : ("[]" : String).data = ['[', ']'] := rfl

/-- Character data of the empty string literal. -/
theorem data_emptystr : ("" : String).data = [] := rfl

/-- Character data of a bracketed key extension. -/
theorem bracketKey_data (p k : String) :
    (p ++ "[" ++ k ++ "]").data = p.data ++ ('[' :: (k.data ++ [']'])) := by
  simp [String.data_append]

/-- Unique parsing of a `]`-terminated segment: two `]`-free prefixes in
front of a `]` delimiter must agree. -/
theorem seg_cancel : ∀ (a b q1 q2 : List Char), ']' ∉ a → ']' ∉ b →
    a ++ ']' :: q1 = b ++ ']' :: q2 → a = b ∧ q1 = q2 := by
  intro a
  induction a with
  | nil =>
    intro b q1 q2 _ hb h
    cases b with
    | nil =>
      simp only [List.nil_append] at h
      exact ⟨rfl, (List.cons.inj h).2⟩
    | cons c bs =>
      simp only [List.nil_append, List.cons_append] at h
      have hc := (List.cons.inj h).1
      exact absurd (by rw [hc]; exact List.mem_cons_self c bs) hb
  | cons c as ih =>
    intro b q1 q2 ha hb h
    cases b with
    | nil =>
      simp only [List.cons_append, List.nil_append] at h
      have hc := (List.cons.inj h).1
      exact absurd (by rw [← hc]; exact List.mem_cons_self c as) ha
    | cons d bs =>
      simp only [List.cons_append] at h
      have h1 := (List.cons.inj h).1
      have h2 := (List.cons.inj h).2
      have ha' : ']' ∉ as := fun hm => ha (List.mem_cons_of_mem c hm)
      have hb' : ']' ∉ bs := fun hm => hb (List.mem_cons_of_mem d hm)
      obtain ⟨e1, e2⟩ := ih bs q1 q2 ha' hb' h2
      exact ⟨by rw [h1, e1], e2⟩

mutual
/-- Every key the spec-side encoder emits extends the parent key. -/
theorem specFlatten_key_extends : ∀ (t : PTree) (p : String)
    (kv : String × Scalar), kv ∈ specFlatten t p →
    ∃ w, kv.1.data = p.data ++ w
  | .leaf v, p, kv, hm => by
    rw [specFlatten] at hm
    rw [List.mem_singleton.mp hm]
    exact ⟨[], by simp⟩
  | .mapping kvs, p, kv, hm => specFlattenKVs_key_extends kvs p kv hm
  | .seq ts, p, kv, hm => by
    rw [specFlatten] at hm
    obtain ⟨w, hw⟩ := specFlattenSeq_key_extends ts (p ++ "[]") kv hm
    exact ⟨['[', ']'] ++ w, by rw [hw]; simp [String.data_append]⟩

/-- Key extension, mapping case. -/
theorem specFlattenKVs_key_extends : ∀ (kvs : KVs) (p : String)
    (kv : String × Scalar), kv ∈ specFlattenKVs kvs p →
    ∃ w, kv.1.data = p.data ++ w
  | .nil, _, _, hm => by rw [specFlattenKVs] at hm; cases hm
  | .cons k v rest, p, kv, hm => by
    rw [specFlattenKVs] at hm
    rcases List.mem_append.mp hm with hl | hr
    · obtain ⟨w, hw⟩ := specFlatten_key_extends v _ kv hl
      by_cases hp : p = ""
      · rw [if_pos hp] at hw
        subst hp
        exact ⟨k.data ++ w, by rw [hw]; simp [data_emptystr]⟩
      · rw [if_neg hp] at hw
        exact ⟨'[' :: (k.data ++ ']' :: w), by
          rw [hw, bracketKey_data]; simp⟩
    · exact specFlattenKVs_key_extends rest p kv hr

/-- Key extension, sequence case. -/
theorem specFlattenSeq_key_extends : ∀ (ts : PSeq) (key : String)
    (kv : String × Scalar), kv ∈ specFlattenSeq ts key →
    ∃ w, kv.1.data = key.data ++ w
  | .nil, _, _, hm => by rw [specFlattenSeq] at hm; cases hm
  | .cons t rest, key, kv, hm => by
    rw [specFlattenSeq] at hm
    rcases List.mem_append.mp hm with hl | hr
    · exact specFlatten_key_extends t key kv hl
    · exact specFlattenSeq_key_extends rest key kv hr
end

/-- Every key emitted under a well-formed mapping starts with a bracketed
segment naming one of its (`]`-free) keys. -/
theorem specFlattenKVs_key_bracket : ∀ (kvs : KVs) (p : String)
    (kv : String × Scalar), wfKVs kvs = true → p ≠ "" →
    kv ∈ specFlattenKVs kvs p →
    ∃ k w, k ∈ keysOf kvs ∧ ']' ∉ k.data ∧
      kv.1.data = p.data ++ '[' :: (k.data ++ ']' :: w)
  | .nil, p, kv, _, _, hm => by rw [specFlattenKVs] at hm; cases hm
  | .cons k v rest, p, kv, hwf, hp, hm => by
    simp only [wfKVs, Bool.and_eq_true] at hwf
    obtain ⟨⟨hgk, _⟩, hwr⟩ := hwf
    rw [specFlattenKVs, if_neg hp] at hm
    rcases List.mem_append.mp hm with hl | hr
    · obtain ⟨w, hw⟩ := specFlatten_key_extends v _ kv hl
      refine ⟨k, w, List.mem_cons_self k _, ?_, ?_⟩
      · simp only [goodKey, Bool.and_eq_true, Bool.not_eq_true',
          decide_eq_false_iff_not] at hgk
        exact hgk.2
      · rw [hw, bracketKey_data]; simp
    · obtain ⟨k2, w, hkmem, hknr, hd⟩ :=
        specFlattenKVs_key_bracket rest p kv hwr hp hr
      exact ⟨k2, w, List.mem_cons_of_mem k hkmem, hknr, hd⟩

mutual
/-- The spec-side encoding of a well-formed tree is never empty. -/
theorem specFlatten_ne_nil : ∀ (t : PTree) (p : String), wfT t = true →
    specFlatten t p ≠ []
  | .leaf v, p, _ => by rw [specFlatten]; intro h; cases h
  | .mapping kvs, p, h => by
    rw [specFlatten]
    simp only [wfT, Bool.and_eq_true] at h
    refine specFlattenKVs_ne_nil kvs p h.2 ?_
    cases kvs with
    | nil => exact absurd h.1.1 (by decide)
    | cons k v rest => intro hc; cases hc
  | .seq ts, p, h => by rw [wfT] at h; cases h

/-- Non-emptiness, mapping case. -/
theorem specFlattenKVs_ne_nil : ∀ (kvs : KVs) (p : String),
    wfKVs kvs = true → kvs ≠ .nil → specFlattenKVs kvs p ≠ []
  | .nil, _, _, hne => absurd rfl hne
  | .cons k v rest, p, hwf, _ => by
    simp only [wfKVs, Bool.and_eq_true] at hwf
    rw [specFlattenKVs]
    intro h
    exact specFlatten_ne_nil v _ hwf.1.2 (List.append_eq_nil.mp h).1
end

/-- Unfolding of the mapping case under a nonempty parent key. -/
theorem specFlattenKVs_cons (k : String) (v : PTree) (rest : KVs)
    (p : String) (hp : p ≠ "") :
    specFlattenKVs (.cons k v rest) p =
      specFlatten v (p ++ "[" ++ k ++ "]") ++ specFlattenKVs rest p := by
  rw [specFlattenKVs, if_neg hp]

/-- An element whose key extends `p[k1]` cannot come from the encoding of
sibling items none of whose keys is `k1`. -/
theorem cross_elem_absurd (p k1 : String) (r : KVs) (e : String × Scalar)
    (hp : p ≠ "") (hk1 : ']' ∉ k1.data) (hwr : wfKVs r = true)
    (hnot : k1 ∉ keysOf r) (u : List Char)
    (he : e.1.data = (p ++ "[" ++ k1 ++ "]").data ++ u)
    (hm : e ∈ specFlattenKVs r p) : False := by
  obtain ⟨k2, w, hkmem, hknr, hd⟩ :=
    specFlattenKVs_key_bracket r p e hwr hp hm
  rw [bracketKey_data] at he
  have he' : e.1.data = p.data ++ '[' :: (k1.data ++ ']' :: u) := by
    rw [he]; simp
  rw [he'] at hd
  have hcore := List.append_cancel_left hd
  have hseg := (List.cons.inj hcore).2
  obtain ⟨hk, _⟩ := seg_cancel _ _ _ _ hk1 hknr hseg
  have hk12 : k1 = k2 := by cases k1; cases k2; exact congrArg String.mk hk
  exact hnot (hk12 ▸ hkmem)

/-- `goodKey` rules out the closing bracket. -/
theorem goodKey_no_rbr {k : String} (h : goodKey k = true) :
    ']' ∉ k.data := by
  simp only [goodKey, Bool.and_eq_true, Bool.not_eq_true',
    decide_eq_false_iff_not] at h
  exact h.2

mutual
/-- Injectivity of the spec-side encoder on well-formed trees: the
flattened pairs determine the tree. -/
theorem specFlatten_inj : ∀ (t1 t2 : PTree) (p : String),
    wfT t1 = true → wfT t2 = true → p ≠ "" →
    specFlatten t1 p = specFlatten t2 p → t1 = t2
  | .leaf v1, .leaf v2, p, _, _, _, h => by
    rw [specFlatten, specFlatten] at h
    simp only [List.cons.injEq, Prod.mk.injEq] at h
    rw [h.1.2]
  | .leaf v1, .mapping kvs2, p, _, h2, hp, h => by
    exfalso
    rw [specFlatten, specFlatten] at h
    simp only [wfT, Bool.and_eq_true] at h2
    have hm : ((p, v1) : String × Scalar) ∈ specFlattenKVs kvs2 p := by
      rw [← h]; exact List.mem_singleton_self _
    obtain ⟨k, w, _, _, hd⟩ :=
      specFlattenKVs_key_bracket kvs2 p (p, v1) h2.2 hp hm
    have hlen := congrArg List.length hd
    simp only [List.length_append, List.length_cons] at hlen
    omega
  | .mapping kvs1, .leaf v2, p, h1, _, hp, h => by
    exfalso
    rw [specFlatten, specFlatten] at h
    simp only [wfT, Bool.and_eq_true] at h1
    have hm : ((p, v2) : String × Scalar) ∈ specFlattenKVs kvs1 p := by
      rw [h]; exact List.mem_singleton_self _
    obtain ⟨k, w, _, _, hd⟩ :=
      specFlattenKVs_key_bracket kvs1 p (p, v2) h1.2 hp hm
    have hlen := congrArg List.length hd
    simp only [List.length_append, List.length_cons] at hlen
    omega
  | .mapping kvs1, .mapping kvs2, p, h1, h2, hp, h => by
    rw [specFlatten, specFlatten] at h
    simp only [wfT, Bool.and_eq_true] at h1 h2
    rw [specFlattenKVs_inj kvs1 kvs2 p h1.2 h2.2 h1.1.2 h2.1.2 hp h]
  | .seq _, _, _, h1, _, _, _ => by rw [wfT] at h1; cases h1
  | _, .seq _, _, _, h2, _, _ => by rw [wfT] at h2; cases h2

/-- Injectivity, mapping case. -/
theorem specFlattenKVs_inj : ∀ (kvs1 kvs2 : KVs) (p : String),
    wfKVs kvs1 = true → wfKVs kvs2 = true →
    nodupB (keysOf kvs1) = true → nodupB (keysOf kvs2) = true → p ≠ "" →
    specFlattenKVs kvs1 p = specFlattenKVs kvs2 p → kvs1 = kvs2
  | .nil, .nil, _, _, _, _, _, _, _ => rfl
  | .nil, .cons k2 v2 r2, p, _, hw2, _, _, hp, h => by
    rw [specFlattenKVs] at h
    exact absurd h.symm
      (specFlattenKVs_ne_nil _ p hw2 (fun hc => by cases hc))
  | .cons k1 v1 r1, .nil, p, hw1, _, _, _, hp, h => by
    have hnil : specFlattenKVs (.cons k1 v1 r1) p = [] := by rw [h]; rfl
    exact absurd hnil
      (specFlattenKVs_ne_nil _ p hw1 (fun hc => by cases hc))
  | .cons k1 v1 r1, .cons k2 v2 r2, p, hw1, hw2, hn1, hn2, hp, h => by
    simp only [wfKVs, Bool.and_eq_true] at hw1 hw2
    obtain ⟨⟨hg1, hv1⟩, hr1⟩ := hw1
    obtain ⟨⟨hg2, hv2⟩, hr2⟩ := hw2
    simp only [keysOf, nodupB, Bool.and_eq_true, Bool.not_eq_true',
      decide_eq_false_iff_not] at hn1 hn2
    obtain ⟨hnin1, hnd1⟩ := hn1
    obtain ⟨hnin2, hnd2⟩ := hn2
    have hg1' := goodKey_no_rbr hg1
    have hg2' := goodKey_no_rbr hg2
    rw [specFlattenKVs_cons k1 v1 r1 p hp,
      specFlattenKVs_cons k2 v2 r2 p hp] at h
    have hne1 : specFlatten v1 (p ++ "[" ++ k1 ++ "]") ≠ [] :=
      specFlatten_ne_nil v1 _ hv1
    have hne2 : specFlatten v2 (p ++ "[" ++ k2 ++ "]") ≠ [] :=
      specFlatten_ne_nil v2 _ hv2
    obtain ⟨e1, xs1, hx1⟩ := List.exists_cons_of_ne_nil hne1
    obtain ⟨e2, xs2, hx2⟩ := List.exists_cons_of_ne_nil hne2
    have hhead : e1 = e2 := by
      have hcopy := h
      rw [hx1, hx2] at hcopy
      simp only [List.cons_append] at hcopy
      exact (List.cons.inj hcopy).1
    have he1mem : e1 ∈ specFlatten v1 (p ++ "[" ++ k1 ++ "]") := by
      rw [hx1]; exact List.mem_cons_self _ _
    have he2mem : e2 ∈ specFlatten v2 (p ++ "[" ++ k2 ++ "]") := by
      rw [hx2]; exact List.mem_cons_self _ _
    obtain ⟨u1, hu1⟩ := specFlatten_key_extends v1 _ e1 he1mem
    obtain ⟨u2, hu2⟩ := specFlatten_key_extends v2 _ e2 he2mem
    have hd1 : e1.1.data = p.data ++ '[' :: (k1.data ++ ']' :: u1) := by
      rw [hu1, bracketKey_data]; simp
    have hd2 : e2.1.data = p.data ++ '[' :: (k2.data ++ ']' :: u2) := by
      rw [hu2, bracketKey_data]; simp
    have hk12 : k1 = k2 := by
      rw [hhead, hd2] at hd1
      have hcore := List.append_cancel_left hd1.symm
      have hseg := (List.cons.inj hcore).2
      obtain ⟨hk, _⟩ := seg_cancel _ _ _ _ hg1' hg2' hseg
      cases k1; cases k2; exact congrArg String.mk hk
    subst hk12
    rcases List.append_eq_append_iff.mp h with ⟨w, hX, hY⟩ | ⟨w, hX, hY⟩
    · cases w with
      | nil =>
        rw [List.append_nil] at hX
        have hv := specFlatten_inj v1 v2 _ hv1 hv2
          (bracketKey_ne_empty p k1) hX.symm
        have hr := specFlattenKVs_inj r1 r2 p hr1 hr2 hnd1 hnd2 hp
          (by simpa using hY)
        rw [hv, hr]
      | cons e wrest =>
        exfalso
        have hemem2 : e ∈ specFlatten v2 (p ++ "[" ++ k1 ++ "]") := by
          rw [hX]; exact List.mem_append_right _ (List.mem_cons_self _ _)
        have hememY1 : e ∈ specFlattenKVs r1 p := by
          rw [hY]; exact List.mem_append_left _ (List.mem_cons_self _ _)
        obtain ⟨u, hu⟩ := specFlatten_key_extends v2 _ e hemem2
        exact cross_elem_absurd p k1 r1 e hp hg1' hr1 hnin1 u hu hememY1
    · cases w with
      | nil =>
        rw [List.append_nil] at hX
        have hv := specFlatten_inj v1 v2 _ hv1 hv2
          (bracketKey_ne_empty p k1) hX
        have hr := specFlattenKVs_inj r1 r2 p hr1 hr2 hnd1 hnd2 hp (by
          rw [hX] at h
          exact List.append_cancel_left h)
        rw [hv, hr]
      | cons e wrest =>
        exfalso
        have hemem1 : e ∈ specFlatten v1 (p ++ "[" ++ k1 ++ "]") := by
          rw [hX]; exact List.mem_append_right _ (List.mem_cons_self _ _)
        have hememY2 : e ∈ specFlattenKVs r2 p := by
          rw [hY]; exact List.mem_append_left _ (List.mem_cons_self _ _)
        obtain ⟨u, hu⟩ := specFlatten_key_extends v1 _ e hemem1
        exact cross_elem_absurd p k1 r2 e hp hg1' hr2 hnin2 u hu hememY2
end

/-- C6 (amended): for sequence-free trees whose mappings are nonempty
with duplicate-free, bracket-free keys (the invariants a Python dict
of plain identifiers gives), and a nonempty prefix, the encoder is
injective — its output uniquely determines the tree — and hence a
regrouping function reconstructing the tree from the output exists. -/
theorem c6_amended : ∀ (p : String), p ≠ "" →
    (∀ t1 t2 : PTree, wfT t1 = true → wfT t2 = true →
      flatten t1 p = flatten t2 p → t1 = t2) ∧
    ∃ regroup : Except Err (List (String × Scalar)) → PTree,
      ∀ t : PTree, wfT t = true → regroup (flatten t p) = t := by
  intro p hp
  have inj : ∀ t1 t2 : PTree, wfT t1 = true → wfT t2 = true →
      flatten t1 p = flatten t2 p → t1 = t2 := by
    intro t1 t2 h1 h2 he
    rw [flatten_eq_spec t1 p hp, flatten_eq_spec t2 p hp] at he
    simp only [Except.ok.injEq] at he
    exact specFlatten_inj t1 t2 p h1 h2 hp he
  refine ⟨inj, ?_⟩
  classical
  refine ⟨fun l =>
    if h : ∃ t, wfT t = true ∧ flatten t p = l then h.choose
    else .leaf (.b true), ?_⟩
  intro t ht
  have hex : ∃ u, wfT u = true ∧ flatten u p = flatten t p := ⟨t, ht, rfl⟩
  show (if h : ∃ u, wfT u = true ∧ flatten u p = flatten t p then h.choose
    else PTree.leaf (Scalar.b true)) = t
  rw [dif_pos hex]
  exact inj _ t hex.choose_spec.1 ht hex.choose_spec.2

/-- C6 witness: the amended theorem applied at the concrete prefix `x`
and concrete tree `{a: {x: 1}}`, all hypotheses discharged by `decide`. -/
theorem c6_amended_witness : tBracket2 = tBracket2 :=
  (c6_amended "x" (by decide)).1 tBracket2 tBracket2 (by decide) (by decide)
    rfl

/-- A RightScale ServerArray handle as the actors see it: the `soul`
fields read by server_array.py (`name`, the `fake` marker present only
on mocks, `elasticity_params.bounds.min_count`) and the resource path. -/
structure SArray where
  name : String
  fake : Bool
  minCount : Nat
  path : String
deriving DecidableEq

/-- What `client.find_server_arrays` hands back: nothing, a single
resource, or (under `exact=False`) a list. -/
inductive FindRes where
  | none : FindRes
  | one : SArray → FindRes
  | many : List SArray → FindRes
deriving DecidableEq

/-- Python truthiness of the find result (`if not array`). -/
def FindRes.found : FindRes → Bool
  | .none => false
  | .one _ => true
  | .many l => !l.isEmpty

/-- The mock ServerArray fabricated at server_array.py lines 100-112:
`soul = ⟨fake: True, name: '<mocked array N>',
elasticity_params.bounds.min_count: 4⟩`, with a random fake path. -/
def mockArray (arrayName : String) (r : Nat) : SArray :=
  { name := "<mocked array " ++ arrayName ++ ">", fake := true,
    minCount := 4, path := "/fake/array/" ++ toString r }

/-- The simulation step of `_find_server_arrays` (lines 95-112): fabricate
a mock exactly when nothing was found, the actor is dry, and mocks are
allowed. -/
def mockStep (arrayName : String) (allowMock dry : Bool) (r : Nat)
    (res : FindRes) : FindRes :=
  if !res.found && dry && allowMock then .one (mockArray arrayName r)
  else res

/-- Valid `raise_on` values; anything else hits the
`UnrecoverableActorFailure` branch before the client is queried. -/
def validRaiseOn : Option String → Bool
  | some v => v == "notfound" || v == "found"
  | Option.none => true

/-- `ServerArrayBaseActor._find_server_arrays` (lines 62-126) given the
client's reply `res`: validate `raise_on`, run the simulation step,
then enforce the existence policy on the post-simulation result. -/
def find_server_arrays (arrayName : String) (raiseOn : Option String)
    (allowMock dry : Bool) (r : Nat) (res : FindRes) :
    Except Err FindRes :=
  if validRaiseOn raiseOn then
    let arr := mockStep arrayName allowMock dry r res
    if arr.found && raiseOn == some "found" then .error .arrayAlreadyExists
    else if !arr.found && raiseOn == some "notfound" then
      .error .arrayNotFound
    else .ok arr
  else .error .unrecoverable

/-- C2: the locator's policy checks run after the simulation step —
`raise_on='notfound'` fails with `ArrayNotFound` exactly when nothing
(real or simulated) was found; `raise_on='found'` fails with
`ArrayAlreadyExists` exactly when a match (real or simulated) exists;
no policy never fails over presence or absence. -/
theorem c2_locator_policy : ∀ (arrayName : String) (allowMock dry : Bool)
    (r : Nat) (res : FindRes),
    (find_server_arrays arrayName (some "notfound") allowMock dry r res =
        .error .arrayNotFound ↔
      (mockStep arrayName allowMock dry r res).found = false) ∧
    (find_server_arrays arrayName (some "found") allowMock dry r res =
        .error .arrayAlreadyExists ↔
      (mockStep arrayName allowMock dry r res).found = true) ∧
    find_server_arrays arrayName Option.none allowMock dry r res =
      .ok (mockStep arrayName allowMock dry r res) := by
  intro arrayName allowMock dry r res
  refine ⟨?_, ?_, ?_⟩
  · rw [find_server_arrays]
    cases h : (mockStep arrayName allowMock dry r res).found <;>
      simp [validRaiseOn, h]
  · rw [find_server_arrays]
    cases h : (mockStep arrayName allowMock dry r res).found <;>
      simp [validRaiseOn, h]
  · rw [find_server_arrays]
    simp [validRaiseOn]

/-- C3 counterexample: a no-match, dry-run, mock-allowed call under the
`mustNotExist` policy does not return the fabricated handle — the
fabricated match trips the policy and the call fails instead. -/
theorem c3_counterexample :
    find_server_arrays "x" (some "found") true true 5 FindRes.none =
      .error .arrayAlreadyExists := by decide

/-- C3 (amended): exactly in the no-match/dry/mock-allowed configuration
a simulated handle is fabricated, carrying `fake = true`,
`min_count = 4` and the display name `<mocked array N>` derived from
the requested name; under the `notfound` or no policy the locator
returns it, while under the `found` policy the fabricated match raises
`ArrayAlreadyExists`; in every other no-match configuration nothing is
fabricated. -/
theorem c3_amended : ∀ (arrayName : String) (allowMock dry : Bool)
    (r : Nat) (res : FindRes),
    (res.found = false → dry = true → allowMock = true →
      mockStep arrayName allowMock dry r res = .one (mockArray arrayName r)) ∧
    (mockArray arrayName r).fake = true ∧
    (mockArray arrayName r).minCount = 4 ∧
    (mockArray arrayName r).name = "<mocked array " ++ arrayName ++ ">" ∧
    (res.found = false → dry = false ∨ allowMock = false →
      mockStep arrayName allowMock dry r res = res) ∧
    (res.found = false → dry = true → allowMock = true →
      find_server_arrays arrayName (some "notfound") allowMock dry r res =
          .ok (.one (mockArray arrayName r)) ∧
        find_server_arrays arrayName Option.none allowMock dry r res =
          .ok (.one (mockArray arrayName r)) ∧
        find_server_arrays arrayName (some "found") allowMock dry r res =
          .error .arrayAlreadyExists) := by
  intro arrayName allowMock dry r res
  refine ⟨?_, rfl, rfl, rfl, ?_, ?_⟩
  · intro hf hd hm
    subst hd; subst hm
    rw [mockStep, hf]
    rfl
  · intro hf hcase
    rw [mockStep, hf]
    rcases hcase with hd | hm
    · subst hd; simp
    · subst hm; simp
  · intro hf hd hm
    subst hd; subst hm
    have hstep : mockStep arrayName true true r res =
        .one (mockArray arrayName r) := by rw [mockStep, hf]; rfl
    refine ⟨?_, ?_, ?_⟩
    · rw [find_server_arrays, hstep]; rfl
    · rw [find_server_arrays, hstep]; rfl
    · rw [find_server_arrays, hstep]; rfl

/-- C3 witness: the amended theorem at a concrete no-match dry-run call. -/
theorem c3_amended_witness :
    mockStep "web" true true 12345 FindRes.none =
        .one (mockArray "web" 12345) ∧
      find_server_arrays "web" (some "notfound") true true 12345
        FindRes.none = .ok (.one (mockArray "web" 12345)) :=
  ⟨(c3_amended "web" true true 12345 FindRes.none).1 rfl rfl rfl,
    ((c3_amended "web" true true 12345 FindRes.none).2.2.2.2.2
      rfl rfl rfl).1⟩

/-- One instance inside an array, as read from its `soul`. -/
structure Instance where
  name : String
  state : String
deriving DecidableEq

/-- A remote-client call, as issued by the actors.  The constructors
mirror the `api` interface consumed by server_array.py. -/
inductive Call where
  | findServerArrays (arrayName : String) (exact : Bool)
  | cloneServerArray (srcName : String)
  | updateServerArray (arrayName : String) (params : List (String × Scalar))
  | updateServerArrayInputs (arrayName : String)
      (inputs : List (String × Scalar))
  | destroyServerArray (arrayName : String)
  | launchServerArray (arrayName : String) (count : Int)
  | terminateServerArrayInstances (arrayName : String)
  | waitForTask
  | getCurrentInstances (arrayName : String) (filterArg : String)
  | getServerArrayInputs (arrayName : String)
  | runExecutableOnInstances (script : String) (arrayName : String)
  | findCookbook (scriptName : String)
  | findRightScript (scriptName : String)
deriving DecidableEq

/-- The calls the spec lists as mutating: clone, update (params or
inputs), delete, launch, terminate-all, and execution submission. -/
def Call.isMutating : Call → Bool
  | .cloneServerArray _ => true
  | .updateServerArray _ _ => true
  | .updateServerArrayInputs _ _ => true
  | .destroyServerArray _ => true
  | .launchServerArray _ _ => true
  | .terminateServerArrayInstances _ => true
  | .runExecutableOnInstances _ _ => true
  | _ => false

/-- Whether a call is an instance launch. -/
def Call.isLaunch : Call → Bool
  | .launchServerArray _ _ => true
  | _ => false

/-- Whether a call awaits a task. -/
def Call.isWaitTask : Call → Bool
  | .waitForTask => true
  | _ => false

/-- The external client's behaviour, one response function per call the
actors make.  Responses are keyed by array name; the polling loops
consume the per-array response lists positionally. -/
structure Client where
  findArrays : String → Bool → FindRes
  instances : String → String → List Instance
  pollEmpty : String → List Nat
  pollHealthy : String → List Nat
  arrayInputs : String → List String
  cloneResult : String → SArray
  rightScriptExists : String → Bool
  cookbookExists : String → Bool
  execTasks : String → Except Unit (List (Instance × Bool))
  rand : Nat

/-- `_find_server_arrays` with its client call recorded.  An invalid
`raise_on` raises before the client is queried. -/
def findTraced (arrayName : String) (exact : Bool) (raiseOn : Option String)
    (allowMock dry : Bool) (c : Client) :
    List Call × Except Err FindRes :=
  if validRaiseOn raiseOn then
    ([.findServerArrays arrayName exact],
     find_server_arrays arrayName raiseOn allowMock dry c.rand
       (c.findArrays arrayName exact))
  else ([], .error .unrecoverable)

/-- The list `_apply` iterates: a bare resource is wrapped in a
singleton; `None` crashes at the first `array.soul['name']` access in
`_apply`'s own debug logging. -/
def FindRes.toListE : FindRes → Except Err (List SArray)
  | .none => .error .pythonFault
  | .one a => .ok [a]
  | .many l => .ok l

/-- `_apply` over traced per-array operations: every operation runs (the
tornado join waits for all), traces concatenate in input order, and
the first failure is reported once all are done. -/
def applyT (f : SArray → List Call × Except Err Unit) :
    List SArray → List Call × Except Err Unit
  | [] => ([], .ok ())
  | a :: rest =>
    let r := f a
    let rr := applyT f rest
    (r.1 ++ rr.1,
     match r.2 with
     | .error e => .error e
     | .ok _ => rr.2)

/-- A resource argument to `_apply`: a single handle or a list. -/
inductive Handles (α : Type) where
  | single : α → Handles α
  | many : List α → Handles α

/-- `_apply`'s normalisation (lines 144-145): wrap a non-list argument
into a one-element list. -/
def normalizeHandles {α : Type} : Handles α → List α
  | .single a => [a]
  | .many l => l

/-- The pure content of `_apply` (lines 128-156): normalise, then invoke
the operation once per resource, collecting results in order. -/
def applyModel {α β : Type} (f : α → β) (hs : Handles α) : List β :=
  (normalizeHandles hs).map f

/-- Options of the Clone actor. -/
structure CloneOpts where
  source : String
  dest : String
  strictSource : Bool
  strictDest : Bool

/-- `source_array.soul['name']`: fine on a single resource, crashes on
`None` or a list. -/
def FindRes.soulName : FindRes → Except Err String
  | .one a => .ok a.name
  | _ => .error .pythonFault

/-- The rename parameters Clone encodes (line 297-298). -/
def renameParams (dest : String) : Except Err (List (String × Scalar)) :=
  generateRightscaleParams "server_array"
    (.mapping (.cons "name" (.leaf (.s dest)) .nil))

/-- `Clone._execute` (lines 269-302): find source (policy per
`strict_source`), find dest (inverted policy per `strict_dest`), clone
for real or fabricate `<mocked clone of src>` under dry, then always
issue the rename update call. -/
def clone_execute (o : CloneOpts) (dry : Bool) (c : Client) :
    List Call × Except Err Unit :=
  let f1 := findTraced o.source true
    (if o.strictSource then some "notfound" else Option.none)
    (!o.strictSource) dry c
  match f1.2 with
  | .error e => (f1.1, .error e)
  | .ok srcRes =>
    let f2 := findTraced o.dest true
      (if o.strictDest then some "found" else Option.none)
      (!o.strictDest) dry c
    match f2.2 with
    | .error e => (f1.1 ++ f2.1, .error e)
    | .ok _ =>
      match srcRes.soulName with
      | .error e => (f1.1 ++ f2.1, .error e)
      | .ok _ =>
        let cloneStep : List Call × SArray :=
          if dry then
            ([], { name := "<mocked clone of " ++ o.source ++ ">",
                   fake := false, minCount := 0, path := "" })
          else ([Call.cloneServerArray o.source], c.cloneResult o.source)
        match renameParams o.dest with
        | .error e => (f1.1 ++ f2.1 ++ cloneStep.1, .error e)
        | .ok ps =>
          (f1.1 ++ f2.1 ++ cloneStep.1 ++
            [Call.updateServerArray cloneStep.2.name ps], .ok ())

/-- Options of the Update actor. -/
structure UpdateOpts where
  array : String
  exact : Bool
  params : KVs
  inputs : KVs

/-- `Update._check_array_inputs` (lines 405-435): skip with a warning on
a mock, otherwise read the array's inputs and fail with
`InvalidInputs` when a supplied name is missing. -/
def check_array_inputs (inputs : KVs) (c : Client) (a : SArray) :
    List Call × Except Err Unit :=
  if a.fake then ([], .ok ())
  else
    ([.getServerArrayInputs a.name],
     if (keysOf inputs).all (fun k => (c.arrayInputs a.name).contains k)
     then .ok () else .error .invalidInputs)

/-- Whether the client's update call raises an HTTPError, and with which
status. -/
def updateOutcome (st : Option Nat) (mapTo : Except Err Unit) :
    Except Err Unit :=
  match st with
  | some _ => mapTo
  | Option.none => .ok ()

/-- `Update._update_params` (lines 437-460): skip when no params were
supplied, otherwise update and map HTTP 422/400 to a recoverable
failure, propagating anything else. -/
def update_params (o : UpdateOpts) (fp : List (String × Scalar))
    (httpStatus : Option Nat) (a : SArray) :
    List Call × Except Err Unit :=
  if o.params.isNil then ([], .ok ())
  else
    ([.updateServerArray a.name fp],
     match httpStatus with
     | some st =>
       if st == 422 || st == 400 then .error .recoverable
       else .error .httpFault
     | Option.none => .ok ())

/-- `Update._update_inputs` (lines 462-475). -/
def update_inputs (o : UpdateOpts) (fi : List (String × Scalar))
    (a : SArray) : List Call × Except Err Unit :=
  if o.inputs.isNil then ([], .ok ())
  else ([.updateServerArrayInputs a.name fi], .ok ())

/-- `Update._execute` (lines 477-498): encode params and inputs (done at
construction time in the source, with the same outcome), find with the
default `notfound`/mock-allowed policy, then either report-only under
dry (checking inputs when some were supplied) or apply params and
inputs for real. -/
def update_execute (o : UpdateOpts) (dry : Bool) (c : Client)
    (httpStatus : Option Nat) : List Call × Except Err Unit :=
  match generateRightscaleParams "server_array" (.mapping o.params),
      generateRightscaleParams "inputs" (.mapping o.inputs) with
  | .ok fp, .ok fi =>
    let f1 := findTraced o.array o.exact (some "notfound") true dry c
    match f1.2 with
    | .error e => (f1.1, .error e)
    | .ok res =>
      match res.toListE with
      | .error e => (f1.1, .error e)
      | .ok arrays =>
        if dry then
          if o.inputs.isNil then (f1.1, .ok ())
          else
            let r := applyT (check_array_inputs o.inputs c) arrays
            (f1.1 ++ r.1, r.2)
        else
          let r1 := applyT (update_params o fp httpStatus) arrays
          match r1.2 with
          | .error e => (f1.1 ++ r1.1, .error e)
          | .ok _ =>
            let r2 := applyT (update_inputs o fi) arrays
            (f1.1 ++ r1.1 ++ r2.1, r2.2)
  | .error e, _ => ([], .error e)
  | _, .error e => ([], .error e)

/-- Options of the Terminate (and Destroy) actors. -/
structure TerminateOpts where
  array : String
  exact : Bool
  strict : Bool

/-- `Terminate._disable_array` (lines 616-633): encode the disable
params first, then either log (dry) or update. -/
def disable_array (dry : Bool) (a : SArray) : List Call × Except Err Unit :=
  match generateRightscaleParams "server_array"
      (.mapping (.cons "state" (.leaf (.s "disabled")) .nil)) with
  | .error e => ([], .error e)
  | .ok ps =>
    if dry then ([], .ok ())
    else ([.updateServerArray a.name ps], .ok ())

/-- `Terminate._terminate_all_instances` (lines 567-583): dry logs only;
otherwise terminate all instances and wait for the task, ignoring its
result. -/
def terminate_all_instances (dry : Bool) (a : SArray) :
    List Call × Except Err Unit :=
  if dry then ([], .ok ())
  else ([.terminateServerArrayInstances a.name, .waitForTask], .ok ())

/-- The polling loop of `Terminate._wait_until_empty` (lines 603-614),
driven by the client's successive instance counts. -/
def wait_until_empty_loop (a : SArray) : List Nat → List Call × Except Err Unit
  | [] => ([], .error .diverged)
  | n :: rest =>
    if n < 1 then ([.getCurrentInstances a.name ""], .ok ())
    else
      let r := wait_until_empty_loop a rest
      ([Call.getCurrentInstances a.name ""] ++ r.1, r.2)

/-- `Terminate._wait_until_empty` (lines 585-614): dry returns at once. -/
def wait_until_empty (dry : Bool) (c : Client) (a : SArray) :
    List Call × Except Err Unit :=
  if dry then ([], .ok ())
  else wait_until_empty_loop a (c.pollEmpty a.name)

/-- `Terminate._execute` (lines 635-654): find per `strict`, then the
three fan-out stages in order with strict stage barriers. -/
def terminate_execute (o : TerminateOpts) (dry : Bool) (c : Client) :
    List Call × Except Err Unit :=
  let f1 := findTraced o.array o.exact
    (if o.strict then some "notfound" else Option.none) (!o.strict) dry c
  match f1.2 with
  | .error e => (f1.1, .error e)
  | .ok res =>
    match res.toListE with
    | .error e => (f1.1, .error e)
    | .ok arrays =>
      let r1 := applyT (disable_array dry) arrays
      match r1.2 with
      | .error e => (f1.1 ++ r1.1, .error e)
      | .ok _ =>
        let r2 := applyT (terminate_all_instances dry) arrays
        match r2.2 with
        | .error e => (f1.1 ++ r1.1 ++ r2.1, .error e)
        | .ok _ =>
          let r3 := applyT (wait_until_empty dry c) arrays
          (f1.1 ++ r1.1 ++ r2.1 ++ r3.1, r3.2)

/-- `Destroy._destroy_array` (lines 725-737). -/
def destroy_array (dry : Bool) (a : SArray) : List Call × Except Err Unit :=
  if dry then ([], .ok ())
  else ([.destroyServerArray a.name], .ok ())

/-- `Destroy._execute` (lines 739-750): the full Terminate workflow, then
a fresh find and the per-array destroy fan-out. -/
def destroy_execute (o : TerminateOpts) (dry : Bool) (c : Client) :
    List Call × Except Err Unit :=
  let t := terminate_execute o dry c
  match t.2 with
  | .error e => (t.1, .error e)
  | .ok _ =>
    let f := findTraced o.array o.exact
      (if o.strict then some "notfound" else Option.none) (!o.strict) dry c
    match f.2 with
    | .error e => (t.1 ++ f.1, .error e)
    | .ok res =>
      match res.toListE with
      | .error e => (t.1 ++ f.1, .error e)
      | .ok arrays =>
        let r := applyT (destroy_array dry) arrays
        (t.1 ++ f.1 ++ r.1, r.2)

/-- Options of the Launch actor.  `count = 0` encodes the unset default
(`int(False)` in the source); the option is otherwise the supplied
integer. -/
structure LaunchOpts where
  array : String
  count : Int
  enable : Bool
  exact : Bool

/-- `Launch._enable_array` (lines 961-978): only acts when `enable` is
set; dry logs only. -/
def enable_array (o : LaunchOpts) (dry : Bool) (a : SArray) :
    List Call × Except Err Unit :=
  if o.enable then
    if !dry then
      match generateRightscaleParams "server_array"
          (.mapping (.cons "state" (.leaf (.s "enabled")) .nil)) with
      | .error e => ([], .error e)
      | .ok ps => ([.updateServerArray a.name ps], .ok ())
    else ([], .ok ())
  else ([], .ok ())

/-- `Launch._launch_instances` (lines 906-959).  With `count` unset the
array's `min_count` and the current operational instances are read and
the launch count is `min_count - current_count` clamped at zero; the
dry check precedes the `count < 1` no-op warning.  With an explicit
count the dry branch logs, and the `count < 1` warning path reads the
never-assigned `current_count`, an `UnboundLocalError`. -/
def launch_instances (dry : Bool) (c : Client) (count : Int) (a : SArray) :
    List Call × Except Err Unit :=
  if count = 0 then
    let tr := [Call.getCurrentInstances a.name "state==operational"]
    let cur : Int := ((c.instances a.name "state==operational").length : Int)
    let cnt0 : Int := (a.minCount : Int) - cur
    let cnt : Int := if cnt0 < 0 then 0 else cnt0
    if dry then (tr, .ok ())
    else if cnt < 1 then (tr, .ok ())
    else (tr ++ [Call.launchServerArray a.name cnt], .ok ())
  else
    if dry then ([], .ok ())
    else if count < 1 then ([], .error .nameErrorCount)
    else ([Call.launchServerArray a.name count], .ok ())

/-- The polling loop of `Launch._wait_until_healthy` (lines 892-904),
driven by the client's successive operational-instance counts. -/
def wait_until_healthy_loop (a : SArray) (minC : Int) :
    List Nat → List Call × Except Err Unit
  | [] => ([], .error .diverged)
  | n :: rest =>
    if minC ≤ (n : Int) then
      ([.getCurrentInstances a.name "state==operational"], .ok ())
    else
      let r := wait_until_healthy_loop a minC rest
      ([Call.getCurrentInstances a.name "state==operational"] ++ r.1, r.2)

/-- `Launch._wait_until_healthy` (lines 866-904): dry returns at once;
the target is the explicit count when given, else the array's
`min_count`. -/
def wait_until_healthy (o : LaunchOpts) (dry : Bool) (c : Client)
    (a : SArray) : List Call × Except Err Unit :=
  if dry then ([], .ok ())
  else
    wait_until_healthy_loop a
      (if o.count ≠ 0 then o.count else (a.minCount : Int))
      (c.pollHealthy a.name)

/-- `Launch._execute` (lines 980-995): find with the default
`notfound`/mock-allowed policy, then the enable, launch and
wait-until-healthy fan-out stages. -/
def launch_execute (o : LaunchOpts) (dry : Bool) (c : Client) :
    List Call × Except Err Unit :=
  let f1 := findTraced o.array o.exact (some "notfound") true dry c
  match f1.2 with
  | .error e => (f1.1, .error e)
  | .ok res =>
    match res.toListE with
    | .error e => (f1.1, .error e)
    | .ok arrays =>
      let r1 := applyT (enable_array o dry) arrays
      match r1.2 with
      | .error e => (f1.1 ++ r1.1, .error e)
      | .ok _ =>
        let r2 := applyT (launch_instances dry c o.count) arrays
        match r2.2 with
        | .error e => (f1.1 ++ r1.1 ++ r2.1, .error e)
        | .ok _ =>
          let r3 := applyT (wait_until_healthy o dry c) arrays
          (f1.1 ++ r1.1 ++ r2.1 ++ r3.1, r3.2)

/-- Options of the Execute actor; `inputs` values are the raw strings
whose scheme prefix is validated. -/
structure ExecuteOpts where
  array : String
  exact : Bool
  script : String
  expectedRuntime : Nat
  inputs : List (String × String)

/-- The Execute inputs option as a parameter tree. -/
def inputsTree : List (String × String) → KVs
  | [] => .nil
  | (k, v) :: rest => .cons k (.leaf (.s v)) (inputsTree rest)

/-- `Execute._check_inputs` (lines 1129-1148): each value's prefix before
the first colon must be one of the six schemes. -/
def schemeOk (v : String) : Bool :=
  ["text", "ignore", "env", "cred", "key", "array"].contains
    ((v.splitOn ":").headD "")

/-- Validation result of `_check_inputs`. -/
def check_inputs (l : List (String × String)) : Except Err Unit :=
  if l.all (fun kv => schemeOk kv.2) then .ok ()
  else .error .invalidOptions

/-- `Execute._check_script` (lines 1120-1127): a namespaced name (one
containing `::`) is looked up as a cookbook, anything else as a
RightScript. -/
def check_script (script : String) (c : Client) : List Call × Bool :=
  if (script.splitOn "::").length != 1 then
    ([.findCookbook script], c.cookbookExists script)
  else ([.findRightScript script], c.rightScriptExists script)

/-- `Execute._get_operational_instances` (lines 1087-1118): read the
non-terminated instances and keep the operational ones. -/
def get_operational_instances (c : Client) (a : SArray) :
    List Call × List Instance :=
  ([.getCurrentInstances a.name "state<>terminated"],
   (c.instances a.name "state<>terminated").filter
     (fun inst => inst.state == "operational"))

/-- `Execute._wait_for_all_tasks` (lines 1150-1181): await every
submitted pair, then report whether all succeeded. -/
def wait_for_all_tasks (pairs : List (Instance × Bool)) :
    List Call × Bool :=
  (pairs.map (fun _ => Call.waitForTask), pairs.all (fun pr => pr.2))

/-- `Execute._execute_array` (lines 1183-1232): get the operational
instances; under dry log and stop; otherwise submit the executions
(a client-side rejection becomes a recoverable failure), await every
task, and raise `TaskExecutionFailed` exactly when some task failed. -/
def execute_array (o : ExecuteOpts) (dry : Bool) (c : Client)
    (a : SArray) : List Call × Except Err Unit :=
  let gi := get_operational_instances c a
  if dry then (gi.1, .ok ())
  else
    match c.execTasks a.name with
    | .error _ =>
      (gi.1 ++ [.runExecutableOnInstances o.script a.name],
       .error .recoverable)
    | .ok pairs =>
      let w := wait_for_all_tasks pairs
      (gi.1 ++ [Call.runExecutableOnInstances o.script a.name] ++ w.1,
       if w.2 then .ok () else .error .taskExecutionFailed)

/-- `Execute._execute` (lines 1234-1262): encode the inputs; under dry,
check the script exists and the input schemes are valid; find with the
default `notfound`/mock-allowed policy; run the per-array execution. -/
def execute_execute (o : ExecuteOpts) (dry : Bool) (c : Client) :
    List Call × Except Err Unit :=
  match generateRightscaleParams "inputs" (.mapping (inputsTree o.inputs)) with
  | .error e => ([], .error e)
  | .ok _fi =>
    let scriptStep : List Call × Bool :=
      if dry then check_script o.script c else ([], true)
    if dry && !scriptStep.2 then (scriptStep.1, .error .invalidOptions)
    else
      match (if dry then check_inputs o.inputs else .ok ()) with
      | .error e => (scriptStep.1, .error e)
      | .ok _ =>
        let f1 := findTraced o.array o.exact (some "notfound") true dry c
        match f1.2 with
        | .error e => (scriptStep.1 ++ f1.1, .error e)
        | .ok res =>
          match res.toListE with
          | .error e => (scriptStep.1 ++ f1.1, .error e)
          | .ok arrays =>
            let r := applyT (execute_array o dry c) arrays
            (scriptStep.1 ++ f1.1 ++ r.1, r.2)

/-- C10: `_apply` wraps a single handle into a one-element list, invokes
the operation exactly once per input resource, and returns exactly one
result per resource in input order. -/
theorem c10_apply_fanout : ∀ (α β : Type) (f : α → β) (a : α) (l : List α),
    applyModel f (.single a) = [f a] ∧
    applyModel f (.many l) = l.map f ∧
    (applyModel f (.many l)).length = l.length := by
  intro α β f a l
  exact ⟨rfl, rfl, by simp [applyModel, normalizeHandles]⟩

/-- Clamping at zero is `max 0`. -/
theorem ite_neg_zero_max (x : Int) : (if x < 0 then 0 else x) = max 0 x := by
  by_cases h : x < 0
  · rw [if_pos h]; exact (max_eq_left h.le).symm
  · rw [if_neg h]; exact (max_eq_right (le_of_not_lt h)).symm

/-- C4: with `count` unset, `_launch_instances` computes the launch count
as `max(0, min_count - currentOperational)` and issues a launch call
exactly when that is at least 1 — the insufficient case only logs and
returns; an explicitly supplied count below 1 issues no launch call
either. -/
theorem c4_launch_count : ∀ (a : SArray) (c : Client) (count : Int)
    (dry : Bool),
    (count = 0 →
      (launch_instances false c count a).1.filter Call.isLaunch =
        (if max 0 ((a.minCount : Int) -
            ((c.instances a.name "state==operational").length : Int)) < 1
         then []
         else [Call.launchServerArray a.name
            (max 0 ((a.minCount : Int) -
              ((c.instances a.name "state==operational").length : Int)))]) ∧
      (launch_instances false c count a).2 = .ok ()) ∧
    (count ≠ 0 → count < 1 →
      (launch_instances dry c count a).1.filter Call.isLaunch = []) := by
  intro a c count dry
  constructor
  · intro h0
    subst h0
    simp only [launch_instances, if_pos rfl, ite_neg_zero_max]
    by_cases hlt : max 0 ((a.minCount : Int) -
        ((c.instances a.name "state==operational").length : Int)) < 1 <;>
      simp [hlt, Call.isLaunch]
  · intro hne hlt
    simp only [launch_instances, if_neg hne]
    cases dry with
    | true => simp
    | false => simp [if_pos hlt]

/-- A ServerArray with `min_count = 4`. -/
def arr4 : SArray := { name := "arr", fake := false, minCount := 4, path := "" }

/-- A client that reports `n` operational instances everywhere. -/
def clientWithOps (n : Nat) : Client :=
  { findArrays := fun _ _ => .none,
    instances := fun _ _ => List.replicate n { name := "i", state := "operational" },
    pollEmpty := fun _ => [],
    pollHealthy := fun _ => [],
    arrayInputs := fun _ => [],
    cloneResult := fun _ => arr4,
    rightScriptExists := fun _ => true,
    cookbookExists := fun _ => true,
    execTasks := fun _ => .ok [],
    rand := 0 }

/-- C4 witness: `min_count=4, currentOperational=6` launches nothing;
`min_count=4, currentOperational=1` launches exactly 3. -/
theorem c4_launch_count_witness :
    (launch_instances false (clientWithOps 6) 0 arr4).1.filter
        Call.isLaunch = [] ∧
    (launch_instances false (clientWithOps 1) 0 arr4).1.filter
        Call.isLaunch = [Call.launchServerArray "arr" 3] := by
  constructor
  · have h := ((c4_launch_count arr4 (clientWithOps 6) 0 false).1 rfl).1
    rw [h]; decide
  · have h := ((c4_launch_count arr4 (clientWithOps 1) 0 false).1 rfl).1
    rw [h]; decide

/-- C8: the warning path of `_launch_instances` is safe whenever `count`
was unset (its variables are assigned in that branch) or the effective
count is at least 1 (the warning is not reached); an explicit negative
count in real mode reaches the warning with `current_count` unassigned
and raises the unbound-local error. -/
theorem c8_warning_unbound : ∀ (a : SArray) (c : Client) (count : Int),
    (launch_instances false c 0 a).2 = .ok () ∧
    (1 ≤ count → (launch_instances false c count a).2 = .ok ()) ∧
    (count < 0 → (launch_instances false c count a).2 =
      .error .nameErrorCount) := by
  intro a c count
  refine ⟨?_, ?_, ?_⟩
  · simp only [launch_instances, if_pos rfl]
    repeat' split
    all_goals first
      | rfl
      | simp_all
  · intro h1
    have hne : ¬ count = 0 := by omega
    have hnl : ¬ count < 1 := by omega
    simp [launch_instances, hne, hnl]
  · intro hneg
    have hne : ¬ count = 0 := by omega
    have hlt : count < 1 := by omega
    simp [launch_instances, hne, hlt]

/-- C8 witness: the theorem at concrete counts 0, 1 and -2. -/
theorem c8_warning_unbound_witness :
    (1 : Int) ≤ 1 ∧ (-2 : Int) < 0 ∧
    (launch_instances false (clientWithOps 6) 0 arr4).2 = .ok () ∧
    (launch_instances false (clientWithOps 6) 1 arr4).2 = .ok () ∧
    (launch_instances false (clientWithOps 6) (-2) arr4).2 =
      .error .nameErrorCount :=
  ⟨by norm_num, by norm_num,
    (c8_warning_unbound arr4 (clientWithOps 6) 0).1,
    (c8_warning_unbound arr4 (clientWithOps 6) 1).2.1 (by norm_num),
    (c8_warning_unbound arr4 (clientWithOps 6) (-2)).2.2 (by norm_num)⟩

/-- All-success is the complement of some-failure. -/
theorem all_snd_eq_not_any (pairs : List (Instance × Bool)) :
    pairs.all (fun pr => pr.2) = !pairs.any (fun pr => !pr.2) := by
  induction pairs with
  | nil => rfl
  | cons x xs ih => simp [List.all_cons, List.any_cons, ih]

/-- C7: in real mode with a successful submission, `_execute_array`
raises `TaskExecutionFailed` exactly when at least one submitted task
finished unsuccessfully, awaits every submitted task (one wait per
pair) regardless of outcome before deciding, and raises nothing on
all-success. -/
theorem c7_execute_failure : ∀ (o : ExecuteOpts) (c : Client) (a : SArray)
    (pairs : List (Instance × Bool)),
    c.execTasks a.name = .ok pairs →
    ((execute_array o false c a).2 = .error .taskExecutionFailed ↔
      pairs.any (fun pr => !pr.2) = true) ∧
    ((execute_array o false c a).1.filter Call.isWaitTask).length =
      pairs.length ∧
    (pairs.all (fun pr => pr.2) = true →
      (execute_array o false c a).2 = .ok ()) := by
  intro o c a pairs hok
  simp only [execute_array, hok, wait_for_all_tasks,
    get_operational_instances]
  refine ⟨?_, ?_, ?_⟩
  · have hrel := all_snd_eq_not_any pairs
    cases hany : pairs.any (fun pr => !pr.2) with
    | false =>
      rw [hany] at hrel
      simp only [Bool.not_false] at hrel
      simp [hrel]
    | true =>
      rw [hany] at hrel
      simp only [Bool.not_true] at hrel
      simp [hrel]
  · have hmap : (pairs.map (fun _ => Call.waitForTask)).filter
        Call.isWaitTask = pairs.map (fun _ => Call.waitForTask) := by
      rw [List.filter_eq_self]
      intro cc hcc
      obtain ⟨pr, _, hpr⟩ := List.mem_map.mp hcc
      rw [← hpr]; rfl
    simp [List.filter_append, hmap, Call.isWaitTask]
  · intro hall
    simp [hall]

/-- Four tasks of which the second fails. -/
def fourTasks : List (Instance × Bool) :=
  [({ name := "i1", state := "operational" }, true),
   ({ name := "i2", state := "operational" }, false),
   ({ name := "i3", state := "operational" }, true),
   ({ name := "i4", state := "operational" }, true)]

/-- A client whose submission returns the four tasks above. -/
def clientFourTasks : Client :=
  { findArrays := fun _ _ => .none,
    instances := fun _ _ => [],
    pollEmpty := fun _ => [],
    pollHealthy := fun _ => [],
    arrayInputs := fun _ => [],
    cloneResult := fun _ => arr4,
    rightScriptExists := fun _ => true,
    cookbookExists := fun _ => true,
    execTasks := fun _ => .ok fourTasks,
    rand := 0 }

/-- The Execute options used in the C7 witness. -/
def exOpts : ExecuteOpts :=
  { array := "arr", exact := true, script := "scr", expectedRuntime := 5,
    inputs := [] }

/-- C7 witness: with 4 submitted tasks of which task 2 fails, the
operation fails with `TaskExecutionFailed` and all 4 tasks were
awaited. -/
theorem c7_execute_failure_witness :
    clientFourTasks.execTasks "arr" = .ok fourTasks ∧
    (execute_array exOpts false clientFourTasks arr4).2 =
      .error .taskExecutionFailed ∧
    ((execute_array exOpts false clientFourTasks arr4).1.filter
      Call.isWaitTask).length = 4 := by
  refine ⟨rfl, ?_, ?_⟩
  · exact (c7_execute_failure exOpts clientFourTasks arr4 fourTasks
      rfl).1.mpr (by decide)
  · exact ((c7_execute_failure exOpts clientFourTasks arr4 fourTasks
      rfl).2.1).trans (by decide)

/-- `_apply` traces stay free of mutating calls when every per-array
operation's trace is. -/
theorem applyT_no_mut (f : SArray → List Call × Except Err Unit)
    (hf : ∀ a, ((f a).1).filter Call.isMutating = []) :
    ∀ l : List SArray, ((applyT f l).1).filter Call.isMutating = []
  | [] => rfl
  | a :: rest => by
    show (((f a).1 ++ (applyT f rest).1)).filter Call.isMutating = []
    rw [List.filter_append, hf a, applyT_no_mut f hf rest]
    rfl

/-- The locator issues only the (read-only) find call. -/
theorem findTraced_no_mut (arrayName : String) (exact : Bool)
    (raiseOn : Option String) (allowMock dry : Bool) (c : Client) :
    ((findTraced arrayName exact raiseOn allowMock dry c).1).filter
      Call.isMutating = [] := by
  rw [findTraced]
  split <;> rfl

/-- The dry input check reads at most the array's input list. -/
theorem check_array_inputs_no_mut (inputs : KVs) (c : Client) (a : SArray) :
    ((check_array_inputs inputs c a).1).filter Call.isMutating = [] := by
  rw [check_array_inputs]
  split <;> rfl

/-- Dry `_disable_array` issues no call. -/
theorem disable_array_dry_no_mut (a : SArray) :
    ((disable_array true a).1).filter Call.isMutating = [] := by
  rw [disable_array]
  split <;> rfl

/-- Dry `_enable_array` issues no call. -/
theorem enable_array_dry_no_mut (o : LaunchOpts) (a : SArray) :
    ((enable_array o true a).1).filter Call.isMutating = [] := by
  rw [enable_array]
  split <;> rfl

/-- Dry `_launch_instances` reads at most the current instances. -/
theorem launch_instances_dry_no_mut (c : Client) (count : Int) (a : SArray) :
    ((launch_instances true c count a).1).filter Call.isMutating = [] := by
  rw [launch_instances]
  split <;> rfl

/-- Dry `_check_script` only performs a lookup. -/
theorem check_script_no_mut (script : String) (c : Client) :
    ((check_script script c).1).filter Call.isMutating = [] := by
  rw [check_script]
  split <;> rfl

/-- The rename parameters Clone builds. -/
theorem renameParams_eq (dest : String) :
    renameParams dest = .ok [("server_array[name]", Scalar.s dest)] := rfl

/-- Dry-run Clone still issues a mutating call: every mutating call in
its trace is the final rename `updateResource` against the fabricated
`<mocked clone of source>` handle. -/
theorem clone_dry_mut (o : CloneOpts) (c : Client) :
    (((clone_execute o true c).1).filter Call.isMutating).all
      (fun cc => cc == Call.updateServerArray
        ("<mocked clone of " ++ o.source ++ ">")
        [("server_array[name]", Scalar.s o.dest)]) = true := by
  have hf1 := findTraced_no_mut o.source true
    (if o.strictSource then some "notfound" else Option.none)
    (!o.strictSource) true c
  have hf2 := findTraced_no_mut o.dest true
    (if o.strictDest then some "found" else Option.none)
    (!o.strictDest) true c
  rw [clone_execute]
  dsimp only
  cases h1 : (findTraced o.source true
      (if o.strictSource then some "notfound" else Option.none)
      (!o.strictSource) true c).2 with
  | error e => simp [hf1]
  | ok srcRes =>
    cases h2 : (findTraced o.dest true
        (if o.strictDest then some "found" else Option.none)
        (!o.strictDest) true c).2 with
    | error e => simp [h2, hf1, hf2, List.filter_append]
    | ok dstRes =>
      cases h3 : srcRes.soulName with
      | error e => simp [h2, h3, hf1, hf2, List.filter_append]
      | ok nm =>
        simp [h2, h3, renameParams_eq o.dest, hf1, hf2,
          List.filter_append, Call.isMutating]

/-- Dry-run Update issues no mutating call. -/
theorem update_dry_no_mut (o : UpdateOpts) (c : Client) (st : Option Nat) :
    ((update_execute o true c st).1).filter Call.isMutating = [] := by
  have hfind := findTraced_no_mut o.array o.exact (some "notfound") true
    true c
  have happ := applyT_no_mut (check_array_inputs o.inputs c)
    (fun a => check_array_inputs_no_mut o.inputs c a)
  rw [update_execute]
  dsimp only
  cases hg1 : generateRightscaleParams "server_array" (.mapping o.params) with
  | error e =>
    cases hg2 : generateRightscaleParams "inputs" (.mapping o.inputs) with
    | error e2 => rfl
    | ok fi => rfl
  | ok fp =>
    cases hg2 : generateRightscaleParams "inputs" (.mapping o.inputs) with
    | error e => rfl
    | ok fi =>
      cases h1 : (findTraced o.array o.exact (some "notfound") true
          true c).2 with
      | error e => simp [hfind]
      | ok res =>
        cases h2 : res.toListE with
        | error e => simp [h2, hfind]
        | ok arrays =>
          cases hnil : o.inputs.isNil with
          | true => simp [h2, hnil, hfind]
          | false => simp [h2, hnil, hfind, happ, List.filter_append]

/-- Dry-run Terminate issues no mutating call. -/
theorem terminate_dry_no_mut (o : TerminateOpts) (c : Client) :
    ((terminate_execute o true c).1).filter Call.isMutating = [] := by
  have hfind := findTraced_no_mut o.array o.exact
    (if o.strict then some "notfound" else Option.none) (!o.strict) true c
  have happ1 := applyT_no_mut (disable_array true)
    (fun a => disable_array_dry_no_mut a)
  have happ2 := applyT_no_mut (terminate_all_instances true)
    (fun a => rfl)
  have happ3 := applyT_no_mut (wait_until_empty true c) (fun a => rfl)
  rw [terminate_execute]
  dsimp only
  cases h1 : (findTraced o.array o.exact
      (if o.strict then some "notfound" else Option.none)
      (!o.strict) true c).2 with
  | error e => simp [hfind]
  | ok res =>
    cases h2 : res.toListE with
    | error e => simp [h2, hfind]
    | ok arrays =>
      cases hd : (applyT (disable_array true) arrays).2 with
      | error e => simp [h2, hd, hfind, happ1, List.filter_append]
      | ok u1 =>
        cases ht : (applyT (terminate_all_instances true) arrays).2 with
        | error e =>
          simp [h2, hd, ht, hfind, happ1, happ2, List.filter_append]
        | ok u2 =>
          simp [h2, hd, ht, hfind, happ1, happ2, happ3,
            List.filter_append]

/-- Dry-run Destroy issues no mutating call. -/
theorem destroy_dry_no_mut (o : TerminateOpts) (c : Client) :
    ((destroy_execute o true c).1).filter Call.isMutating = [] := by
  have hterm := terminate_dry_no_mut o c
  have hfind := findTraced_no_mut o.array o.exact
    (if o.strict then some "notfound" else Option.none) (!o.strict) true c
  have happ := applyT_no_mut (destroy_array true) (fun a => rfl)
  rw [destroy_execute]
  dsimp only
  cases h1 : (terminate_execute o true c).2 with
  | error e => simp [hterm]
  | ok u =>
    cases h2 : (findTraced o.array o.exact
        (if o.strict then some "notfound" else Option.none)
        (!o.strict) true c).2 with
    | error e => simp [h2, hterm, hfind, List.filter_append]
    | ok res =>
      cases h3 : res.toListE with
      | error e => simp [h2, h3, hterm, hfind, List.filter_append]
      | ok arrays =>
        simp [h2, h3, hterm, hfind, happ, List.filter_append]

/-- Dry-run Launch issues no mutating call. -/
theorem launch_dry_no_mut (o : LaunchOpts) (c : Client) :
    ((launch_execute o true c).1).filter Call.isMutating = [] := by
  have hfind := findTraced_no_mut o.array o.exact (some "notfound") true
    true c
  have happ1 := applyT_no_mut (enable_array o true)
    (fun a => enable_array_dry_no_mut o a)
  have happ2 := applyT_no_mut (launch_instances true c o.count)
    (fun a => launch_instances_dry_no_mut c o.count a)
  have happ3 := applyT_no_mut (wait_until_healthy o true c) (fun a => rfl)
  rw [launch_execute]
  dsimp only
  cases h1 : (findTraced o.array o.exact (some "notfound") true
      true c).2 with
  | error e => simp [hfind]
  | ok res =>
    cases h2 : res.toListE with
    | error e => simp [h2, hfind]
    | ok arrays =>
      cases he : (applyT (enable_array o true) arrays).2 with
      | error e => simp [h2, he, hfind, happ1, List.filter_append]
      | ok u1 =>
        cases hl : (applyT (launch_instances true c o.count) arrays).2 with
        | error e =>
          simp [h2, he, hl, hfind, happ1, happ2, List.filter_append]
        | ok u2 =>
          simp [h2, he, hl, hfind, happ1, happ2, happ3,
            List.filter_append]

/-- Dry-run Execute issues no mutating call. -/
theorem execute_dry_no_mut (o : ExecuteOpts) (c : Client) :
    ((execute_execute o true c).1).filter Call.isMutating = [] := by
  have hscript := check_script_no_mut o.script c
  have hfind := findTraced_no_mut o.array o.exact (some "notfound") true
    true c
  have happ := applyT_no_mut (execute_array o true c) (fun a => rfl)
  rw [execute_execute]
  dsimp only
  cases hg : generateRightscaleParams "inputs"
      (.mapping (inputsTree o.inputs)) with
  | error e => rfl
  | ok fi =>
    cases hsc : (check_script o.script c).2 with
    | false => simp [hsc, hscript]
    | true =>
      cases hci : check_inputs o.inputs with
      | error e => simp [hsc, hci, hscript]
      | ok u =>
        cases h1 : (findTraced o.array o.exact (some "notfound") true
            true c).2 with
        | error e => simp [hsc, hci, hscript, hfind, List.filter_append]
        | ok res =>
          cases h2 : res.toListE with
          | error e =>
            simp [hsc, hci, h2, hscript, hfind, List.filter_append]
          | ok arrays =>
            simp [hsc, hci, h2, hscript, hfind, happ, List.filter_append]

/-- C1 (amended): in dry-run mode Update, Terminate, Destroy, Launch and
Execute issue no mutating remote-client call for any client state,
while Clone issues exactly its final rename `updateResource` call
(against the fabricated clone handle) and no other mutating call. -/
theorem c1_amended : ∀ (o1 : CloneOpts) (o2 : UpdateOpts) (st : Option Nat)
    (o3 o4 : TerminateOpts) (o5 : LaunchOpts) (o6 : ExecuteOpts)
    (c : Client),
    (((clone_execute o1 true c).1).filter Call.isMutating).all
      (fun cc => cc == Call.updateServerArray
        ("<mocked clone of " ++ o1.source ++ ">")
        [("server_array[name]", Scalar.s o1.dest)]) = true ∧
    ((update_execute o2 true c st).1).filter Call.isMutating = [] ∧
    ((terminate_execute o3 true c).1).filter Call.isMutating = [] ∧
    ((destroy_execute o4 true c).1).filter Call.isMutating = [] ∧
    ((launch_execute o5 true c).1).filter Call.isMutating = [] ∧
    ((execute_execute o6 true c).1).filter Call.isMutating = [] :=
  fun o1 o2 st o3 o4 o5 o6 c =>
    ⟨clone_dry_mut o1 c, update_dry_no_mut o2 c st,
     terminate_dry_no_mut o3 c, destroy_dry_no_mut o4 c,
     launch_dry_no_mut o5 c, execute_dry_no_mut o6 c⟩

/-- A client state in which the clone source exists and the destination
does not. -/
def exClient : Client :=
  { findArrays := fun n _ =>
      if n == "src" then
        .one { name := "src", fake := false, minCount := 4, path := "/x" }
      else .none,
    instances := fun _ _ => [],
    pollEmpty := fun _ => [],
    pollHealthy := fun _ => [],
    arrayInputs := fun _ => [],
    cloneResult := fun _ => arr4,
    rightScriptExists := fun _ => true,
    cookbookExists := fun _ => true,
    execTasks := fun _ => .ok [],
    rand := 7 }

/-- C1 counterexample: a concrete dry-run Clone issues the mutating
rename `updateResource` call — dry-run does not suppress every
mutating remote-client call. -/
theorem c1_counterexample :
    ((clone_execute (CloneOpts.mk "src" "dst" true true)
        true exClient).1).filter Call.isMutating =
      [Call.updateServerArray "<mocked clone of src>"
        [("server_array[name]", Scalar.s "dst")]] ∧
    Call.isMutating (Call.updateServerArray "<mocked clone of src>"
      [("server_array[name]", Scalar.s "dst")]) = true :=
  ⟨by decide, rfl⟩
